import Mathlib

/-!
Shallow embedding of the edit-mode repository's text-patch engine
(`src/edit-mode.js`, first file variant, whose line numbers the claims
cite) and of the offline reconciliation tool
(`src/scripts/restore-original-texts.js`).

Modelling conventions:

* JS strings are modelled as `List Char` (`Str`).  All inputs relevant to
  the claims are plain text, where UTF-16 code units and Unicode scalars
  agree; the one divergence (numeric character references that would
  produce a lone surrogate in JS) is noted at `fromCharCode`.
* The regular expressions of the source are built from `escapeRegex`-escaped
  literal words joined by `[\s\n]+`, from fixed literal tags, or from simple
  character classes.  They are embedded as deterministic matching functions.
  This is faithful because each literal word is nonempty and contains no
  whitespace character, so the greedy whitespace runs of the backtracking
  regex are forced to be exactly the maximal whitespace runs of the buffer,
  and similarly for the `[^>]*` runs, which are followed by a literal `>`.
* JS `null` is not representable in `Str`; the `edit.oldText == null`
  checks of `applyEditsToSource` can therefore never fire in the embedding
  (its callers always supply strings), and are dropped.
-/

/-- JS strings, as lists of characters. -/
abbrev Str := List Char

/-- Convenience coercion from Lean string literals. -/
def str (s : String) : Str := s.toList

/-- The JS `\s` character class (also the characters removed by
`String.trim`): ASCII whitespace plus the Unicode space characters of the
ECMAScript definition. -/
def isWsChar (c : Char) : Bool :=
  c = ' ' || c = '\t' || c = '\n' || c = '\r' || c = '\x0b' || c = '\x0c' ||
  c = '\u00a0' || c = '\u1680' || ('\u2000' ≤ c && c ≤ '\u200a') ||
  c = '\u2028' || c = '\u2029' || c = '\u202f' || c = '\u205f' ||
  c = '\u3000' || c = '\ufeff'

/-- The JS `\w` class (ASCII letters, digits, underscore), used for the
word boundary `\b` in `/<body\b[^>]*>/i`. -/
def isWordChar (c : Char) : Bool :=
  c.isAlphanum || c = '_'

/-- JS `String.prototype.trim`. -/
def trimStr (s : Str) : Str :=
  ((s.dropWhile (fun c => isWsChar c)).reverse.dropWhile (fun c => isWsChar c)).reverse

/-- `oldText.split(/\s+/).filter(Boolean)`: the whitespace-delimited words
of a string (the `filter(Boolean)` of the source drops the empty fragments
that JS `split` produces at the ends). -/
def splitWordsAux : Str → Str → List Str
  | [], acc => if acc.isEmpty then [] else [acc.reverse]
  | c :: rest, acc =>
    if isWsChar c then
      if acc.isEmpty then splitWordsAux rest []
      else acc.reverse :: splitWordsAux rest []
    else splitWordsAux rest (c :: acc)

def splitWords (s : Str) : List Str := splitWordsAux s []

/-- Consume a literal word (already `escapeRegex`-escaped in the source,
hence matched verbatim) from the front of the buffer. -/
def dropWordOpt : Str → Str → Option Str
  | [], s => some s
  | _, [] => none
  | p :: ps, c :: cs => if p = c then dropWordOpt ps cs else none

/-- Consume a literal pattern case-insensitively (the `/i` flag of the
source's regexes; the pattern is given lowercase and is pure ASCII, for
which ECMAScript canonicalisation coincides with ASCII lowercasing). -/
def dropCIOpt : Str → Str → Option Str
  | [], s => some s
  | _, [] => none
  | p :: ps, c :: cs => if c.toLower = p then dropCIOpt ps cs else none

/-- Match of the whole pattern `w1[\s\n]+w2[\s\n]+...wn` at the head of the
buffer, returning the matched length.  `[\s\n]` is the same class as `\s`.
Each inner whitespace run is forced maximal because the following literal
word starts with a non-whitespace character.  An empty word list yields no
match (the source never searches in that case: it skips the edit first). -/
def matchWordsAt : List Str → Str → Option Nat
  | [], _ => none
  | [w], s =>
    match dropWordOpt w s with
    | some _ => some w.length
    | none => none
  | w :: ws, s =>
    match dropWordOpt w s with
    | none => none
    | some rest =>
      let n := (rest.takeWhile isWsChar).length
      if n = 0 then none
      else
        match matchWordsAt ws (rest.drop n) with
        | some m => some (w.length + n + m)
        | none => none

/-- Leftmost match of a matcher over a buffer: the position (offset into
the given buffer) and value of the first successful match.  This is the
scanning behaviour of `RegExp.prototype.exec`. -/
def firstMatchOff (m : Str → Option Nat) : Str → Option (Nat × Nat)
  | [] =>
    match m [] with
    | some l => some (0, l)
    | none => none
  | c :: rest =>
    match m (c :: rest) with
    | some l => some (0, l)
    | none => (firstMatchOff m rest).map (fun q => (q.1 + 1, q.2))

/-- `regex.lastIndex = start; regex.exec(s)` for a `g`-flagged word-pattern
regex: the first match at an index `≥ start`, with its length. -/
def findWordsFrom (ws : List Str) (s : Str) (start : Nat) : Option (Nat × Nat) :=
  (firstMatchOff (matchWordsAt ws) (s.drop start)).map (fun q => (start + q.1, q.2))

/-- Length of the maximal `[^>]*` run at the head of a buffer. -/
def nonGtRunLen (s : Str) : Nat :=
  (s.takeWhile (fun x => x ≠ '>')).length

/-- Match of `/<body\b[^>]*>/i` at the head of the buffer (length of the
matched opening body tag).  `\b` after `body` requires the next character
to be a non-word character; `[^>]*` is forced maximal by the final `>`. -/
def bodyOpenMatchAt (s : Str) : Option Nat :=
  match dropCIOpt (str "<body") s with
  | none => none
  | some s1 =>
    if s1.head?.elim false isWordChar then none
    else if (s1.drop (nonGtRunLen s1)).head? = some '>' then
      some (5 + nonGtRunLen s1 + 1)
    else none

/-- `html.match(/<body\b[^>]*>/i)`: index and length of the first opening
body tag. -/
def findBodyOpen (html : Str) : Option (Nat × Nat) :=
  firstMatchOff bodyOpenMatchAt html

/-- `getBodyContentStartIndex` — defined identically in `src/edit-mode.js`
and `src/scripts/restore-original-texts.js`: the offset just past the
opening body tag, or `0` when there is none. -/
def getBodyContentStartIndex (html : Str) : Nat :=
  match findBodyOpen html with
  | none => 0
  | some q => q.1 + q.2

/-- An `{ oldText, newText }` edit object. -/
structure Edit where
  oldText : Str
  newText : Str
deriving DecidableEq

namespace EditMode

/-- The `{ html, appliedCount }` value returned by the in-page
`applyEditsToSource` (src/edit-mode.js lines 173-199). -/
structure PatchResult where
  html : Str
  appliedCount : Nat
deriving DecidableEq

/-- The `for (const edit of edits)` loop of `applyEditsToSource`
(src/edit-mode.js lines 178-197), with the running buffer, cursor and
applied counter as explicit state.  The `== null` tests of line 179 are
vacuous for string-valued edits and drop out. -/
def applyLoop : Str → Nat → Nat → List Edit → Str × Nat
  | result, _, appliedCount, [] => (result, appliedCount)
  | result, cursor, appliedCount, edit :: rest =>
    if edit.oldText = edit.newText then
      applyLoop result cursor appliedCount rest
    else
      let words := splitWords edit.oldText
      if words.isEmpty then applyLoop result cursor appliedCount rest
      else
        match findWordsFrom words result cursor with
        | none => applyLoop result cursor appliedCount rest
        | some q =>
          applyLoop (result.take q.1 ++ edit.newText ++ result.drop (q.1 + q.2))
            (q.1 + edit.newText.length) (appliedCount + 1) rest

/-- `applyEditsToSource(html, edits)` of src/edit-mode.js lines 173-199. -/
def applyEditsToSource (html : Str) (edits : List Edit) : PatchResult :=
  let out := applyLoop html (getBodyContentStartIndex html) 0 edits
  PatchResult.mk out.1 out.2

end EditMode

/-! ### Basic facts about the word-pattern search -/

theorem matchWordsAt_nil (s : Str) : matchWordsAt [] s = none := rfl

theorem firstMatchOff_none_of (m : Str → Option Nat) (h : ∀ t, m t = none) :
    ∀ s, firstMatchOff m s = none := by
  intro s
  induction s with
  | nil =>
    have h0 : firstMatchOff m [] =
        (match m [] with | some l => some (0, l) | none => none) := rfl
    rw [h0, h]
  | cons c rest ih => unfold firstMatchOff; rw [h, ih]; rfl

theorem findWordsFrom_nil (s : Str) (c : Nat) : findWordsFrom [] s c = none := by
  unfold findWordsFrom
  rw [firstMatchOff_none_of _ (fun t => matchWordsAt_nil t)]
  rfl

theorem findWordsFrom_ge (ws : List Str) (s : Str) (c : Nat) (q : Nat × Nat)
    (h : findWordsFrom ws s c = some q) : c ≤ q.1 := by
  unfold findWordsFrom at h
  cases hfm : firstMatchOff (matchWordsAt ws) (s.drop c) with
  | none => rw [hfm] at h; exact Option.noConfusion h
  | some p =>
    rw [hfm] at h
    simp only [Option.map_some'] at h
    cases h
    exact Nat.le_add_right c p.1

theorem firstMatchOff_spec (m : Str → Option Nat) :
    ∀ (s : Str) (j l : Nat), firstMatchOff m s = some (j, l) →
      j ≤ s.length ∧ m (s.drop j) = some l := by
  intro s
  induction s with
  | nil =>
    intro j l h
    unfold firstMatchOff at h
    cases hm : m [] with
    | none => rw [hm] at h; exact Option.noConfusion h
    | some v =>
      rw [hm] at h
      cases h
      exact ⟨Nat.le_refl 0, hm⟩
  | cons c rest ih =>
    intro j l h
    unfold firstMatchOff at h
    cases hm : m (c :: rest) with
    | some v =>
      rw [hm] at h
      cases h
      exact ⟨Nat.zero_le _, hm⟩
    | none =>
      rw [hm] at h
      cases hrec : firstMatchOff m rest with
      | none => rw [hrec] at h; exact Option.noConfusion h
      | some p =>
        rw [hrec] at h
        simp only [Option.map_some'] at h
        cases h
        obtain ⟨h1, h2⟩ := ih p.1 p.2 (by rw [hrec])
        exact ⟨Nat.succ_le_succ h1, h2⟩

theorem dropCIOpt_length :
    ∀ (p s r : Str), dropCIOpt p s = some r → s.length = p.length + r.length := by
  intro p
  induction p with
  | nil =>
    intro s r h
    have h0 : dropCIOpt [] s = some s := by cases s <;> rfl
    rw [h0] at h
    cases h
    simp
  | cons a ps ih =>
    intro s r h
    cases s with
    | nil => exact Option.noConfusion h
    | cons c cs =>
      have h0 : dropCIOpt (a :: ps) (c :: cs) =
          if c.toLower = a then dropCIOpt ps cs else none := rfl
      rw [h0] at h
      by_cases hc : c.toLower = a
      · rw [if_pos hc] at h
        have := ih cs r h
        simp only [List.length_cons, this]
        omega
      · rw [if_neg hc] at h
        exact Option.noConfusion h

theorem bodyOpenMatchAt_le (s : Str) (l : Nat) (h : bodyOpenMatchAt s = some l) :
    l ≤ s.length := by
  unfold bodyOpenMatchAt at h
  split at h
  · exact Option.noConfusion h
  · rename_i s1 heq
    have hlen : s.length = 5 + s1.length := dropCIOpt_length _ _ _ heq
    split at h
    · exact Option.noConfusion h
    · split at h
      · rename_i hgt
        injection h with h
        have hne : s1.drop (nonGtRunLen s1) ≠ [] := by
          intro hnil
          rw [hnil] at hgt
          exact Option.noConfusion hgt
        have hrlt : nonGtRunLen s1 < s1.length := by
          by_contra hge
          exact hne (List.drop_eq_nil_of_le (Nat.le_of_not_lt hge))
        omega
      · exact Option.noConfusion h

theorem bodyStart_le (html : Str) : getBodyContentStartIndex html ≤ html.length := by
  unfold getBodyContentStartIndex findBodyOpen
  cases hfm : firstMatchOff bodyOpenMatchAt html with
  | none => exact Nat.zero_le _
  | some q =>
    show q.1 + q.2 ≤ html.length
    obtain ⟨h1, h2⟩ := firstMatchOff_spec bodyOpenMatchAt html q.1 q.2 (by rw [hfm])
    have h3 := bodyOpenMatchAt_le _ _ h2
    simp only [List.length_drop] at h3
    omega

/-! ### C1: single-edit exactness -/

/-- C1. For an edit whose `oldText` pattern occurs exactly once from the
start of the body region onward (`hfind`: the first match is at `start`
with length `len`; `hunique`: no further match after it), and which is not
an identity edit (identity edits are skipped per the source, and the
spec's Edit invariant `oldText ≠ newText`), `applyEditsToSource` replaces
exactly the matched span with `newText` verbatim, leaves every other
character unchanged, and reports `appliedCount = 1`. -/
theorem patch_single_edit_exact (html oldText newText : Str) (start len : Nat)
    (hne : oldText ≠ newText)
    (hfind : findWordsFrom (splitWords oldText) html
      (getBodyContentStartIndex html) = some (start, len))
    (hunique : findWordsFrom (splitWords oldText) html (start + 1) = none) :
    EditMode.applyEditsToSource html [Edit.mk oldText newText] =
      EditMode.PatchResult.mk (html.take start ++ newText ++ html.drop (start + len)) 1 := by
  have hw : (splitWords oldText).isEmpty = false := by
    cases hsw : splitWords oldText with
    | nil => rw [hsw, findWordsFrom_nil] at hfind; exact Option.noConfusion hfind
    | cons a as => rfl
  unfold EditMode.applyEditsToSource EditMode.applyLoop
  simp only [if_neg hne, hw, Bool.false_eq_true, if_neg (by simp : ¬ False), hfind]
  rfl

/-- Witness for C1 at a concrete page. -/
theorem patch_single_edit_exact_witness :
    EditMode.applyEditsToSource (str "<body>a b</body>") [Edit.mk (str "a b") (str "XY")] =
      EditMode.PatchResult.mk (str "<body>XY</body>") 1 :=
  patch_single_edit_exact (str "<body>a b</body>") (str "a b") (str "XY") 6 3
    (by decide) (by decide) (by decide)

/-! ### Save policy (src/edit-mode.js lines 208-238) -/

/-- `REMOVE_SCRIPT_ON_SAVE` (src/edit-mode.js line 33). -/
def REMOVE_SCRIPT_ON_SAVE : Bool := true

/-- First index (case-insensitive) of a literal pattern in a buffer. -/
def indexOfCI (pat s : Str) : Option Nat :=
  (firstMatchOff (fun t => (dropCIOpt pat t).map (fun _ => pat.length)) s).map (fun q => q.1)

/-- Whether a buffer contains a literal pattern, case-insensitively. -/
def containsCI (pat s : Str) : Bool :=
  (indexOfCI pat s).isSome

/-- Length of the maximal `\s*` run at the head of a buffer. -/
def wsRunLen (s : Str) : Nat :=
  (s.takeWhile isWsChar).length

/-- Global leftmost-match replacement, the semantics of
`String.prototype.replace` with a `g` regex: scan left to right; at each
match, emit its (possibly computed) replacement and continue after the
match.  Fuelled by the buffer length, which suffices because every matcher
used here consumes at least one character (the `max _ 1` guard, which also
matches how JS advances past a zero-width match, keeps the fuel argument
trivially valid). -/
def replaceScanFuel (m : Str → Option (Nat × Str)) : Nat → Str → Str
  | 0, s => s
  | _ + 1, [] => []
  | fuel + 1, c :: rest =>
    match m (c :: rest) with
    | some q => q.2 ++ replaceScanFuel m fuel ((c :: rest).drop (max q.1 1))
    | none => c :: replaceScanFuel m fuel rest

def replaceScan (m : Str → Option (Nat × Str)) (s : Str) : Str :=
  replaceScanFuel m s.length s

/-- Match of `/\s*<script[^>]*edit-mode[^>]*><\/script>\s*/i` at the head
of the buffer (src/edit-mode.js line 205).  The leading `\s*` run is forced
maximal by the following literal `<`; `[^>]*edit-mode[^>]*` matches the
maximal non-`>` run provided it contains `edit-mode` and is closed by `>`;
the trailing `\s*` is greedy and unconstrained, hence maximal. -/
def scriptTagMatchLen (s : Str) : Option Nat :=
  let k := wsRunLen s
  match dropCIOpt (str "<script") (s.drop k) with
  | none => none
  | some s1 =>
    let r := nonGtRunLen s1
    if containsCI (str "edit-mode") (s1.take r) && ((s1.drop r).head? == some '>') then
      match dropCIOpt (str "</script>") (s1.drop (r + 1)) with
      | none => none
      | some s2 => some (k + 7 + r + 1 + 9 + wsRunLen s2)
    else none

/-- `removeEditModeScript(html)` (src/edit-mode.js lines 204-206): strips
the tool's own script tag, replacing each occurrence with a newline. -/
def removeEditModeScript (html : Str) : Str :=
  replaceScan (fun s => (scriptTagMatchLen s).map (fun l => (l, str "\n"))) html

/-- Outcome of `saveFile` (src/edit-mode.js lines 208-238): the early
no-changes return, the two fallback paths (`saveFallback`, which exports
the live DOM and is outside the patch engine), or a committed download of
the patched buffer. -/
inductive SaveOutcome where
  | noChanges : SaveOutcome
  | fallbackNoSource : SaveOutcome
  | fallbackPartial : SaveOutcome
  | commit : Str → SaveOutcome
deriving DecidableEq

/-- `saveFile` (src/edit-mode.js lines 208-238), with the collected edit
list and the fetched source as parameters (in the source they are
`collectEdits()` and the ambient `originalHTML`, which is `null` until the
fetch lands). -/
def saveFile (originalHTML : Option Str) (edits : List Edit) : SaveOutcome :=
  if edits.length = 0 then SaveOutcome.noChanges
  else
    match originalHTML with
    | none => SaveOutcome.fallbackNoSource
    | some src =>
      let patched := EditMode.applyEditsToSource src edits
      if patched.appliedCount < edits.length then SaveOutcome.fallbackPartial
      else
        SaveOutcome.commit
          (if REMOVE_SCRIPT_ON_SAVE then removeEditModeScript patched.html else patched.html)

/-- C2. Whenever the patch pass could not apply every edit
(`appliedCount < edits.length`), `saveFile` never commits the patched
buffer: it takes the fallback path for the entire save. -/
theorem save_policy_partial_fallback (src : Str) (edits : List Edit)
    (h : (EditMode.applyEditsToSource src edits).appliedCount < edits.length) :
    saveFile (some src) edits = SaveOutcome.fallbackPartial := by
  have hne : ¬ edits.length = 0 := by omega
  unfold saveFile
  rw [if_neg hne]
  simp only [if_pos h]

/-- Witness for C2: a save with one unmatchable edit falls back. -/
theorem save_policy_partial_fallback_witness :
    saveFile (some (str "<body>x</body>")) [Edit.mk (str "zz") (str "y")] =
      SaveOutcome.fallbackPartial :=
  save_policy_partial_fallback (str "<body>x</body>") [Edit.mk (str "zz") (str "y")]
    (by decide)

namespace RestoreTool

/-- The `{ html, appliedCount }` value returned by the offline
`applyEditsToSource` (src/scripts/restore-original-texts.js lines 117-143). -/
structure PatchResult where
  html : Str
  appliedCount : Nat
deriving DecidableEq

/-- The edit loop of the offline `applyEditsToSource`
(src/scripts/restore-original-texts.js lines 122-140).  It differs from the
in-page loop only in its skip guard: `!edit.oldText || !edit.newText ||
edit.oldText === edit.newText`, where `!` is JS falsiness, so empty strings
are skipped here. -/
def applyLoop : Str → Nat → Nat → List Edit → Str × Nat
  | result, _, appliedCount, [] => (result, appliedCount)
  | result, cursor, appliedCount, edit :: rest =>
    if edit.oldText = [] ∨ edit.newText = [] ∨ edit.oldText = edit.newText then
      applyLoop result cursor appliedCount rest
    else
      let words := splitWords edit.oldText
      if words.isEmpty then applyLoop result cursor appliedCount rest
      else
        match findWordsFrom words result cursor with
        | none => applyLoop result cursor appliedCount rest
        | some q =>
          applyLoop (result.take q.1 ++ edit.newText ++ result.drop (q.1 + q.2))
            (q.1 + edit.newText.length) (appliedCount + 1) rest

/-- `applyEditsToSource(html, edits)` of
src/scripts/restore-original-texts.js lines 117-143. -/
def applyEditsToSource (html : Str) (edits : List Edit) : PatchResult :=
  let out := applyLoop html (getBodyContentStartIndex html) 0 edits
  PatchResult.mk out.1 out.2

end RestoreTool

/-! ### C3: no retry from the start of the body region -/

/-- C3 counterexample.  On `<body>ho hi</body>`, the first edit
(`hi` to `HI`) matches at offset 9 and advances the cursor to 11, giving
the intermediate buffer `<body>ho HI</body>`.  The second edit's `old`
text (`ho`) then occurs only between the body start and the cursor: the
second and third conjuncts prove its pattern matches that buffer at
offset 6 when searched from the body start (so the retry the claim
describes would have found and applied it) but has no match from the
cursor 11 onward.  The code performs no such retry: the final conjuncts
show the result keeps `ho` with `appliedCount = 1`, not the full
application the claim requires. -/
theorem patch_no_retry_counterexample :
    EditMode.applyEditsToSource (str "<body>ho hi</body>")
        [Edit.mk (str "hi") (str "HI"), Edit.mk (str "ho") (str "HO")] =
      EditMode.PatchResult.mk (str "<body>ho HI</body>") 1 ∧
    findWordsFrom (splitWords (str "ho")) (str "<body>ho HI</body>")
        (getBodyContentStartIndex (str "<body>ho HI</body>")) = some (6, 2) ∧
    findWordsFrom (splitWords (str "ho")) (str "<body>ho HI</body>") 11 = none ∧
    EditMode.applyEditsToSource (str "<body>ho hi</body>")
        [Edit.mk (str "hi") (str "HI"), Edit.mk (str "ho") (str "HO")] ≠
      EditMode.PatchResult.mk (str "<body>HO HI</body>") 2 := by
  exact ⟨by decide, by decide, by decide, by decide⟩

/-- C3 amended.  Both patch loops run exactly one search per edit, from
the current cursor onward (`regex.lastIndex = cursor; regex.exec(result)`,
src/edit-mode.js lines 188-191 and src/scripts/restore-original-texts.js
lines 131-133); when it fails the edit is left unapplied and the buffer,
cursor and counter carry over unchanged to the next edit.  No second
search from the start of the body region exists: the hypothesis only
constrains positions at or after the cursor, so the theorem applies even
when the pattern does occur in the body region before the cursor — where
the retry described by the claim would have changed the outcome. -/
theorem patch_no_retry_amended (result : Str) (cursor count : Nat) (e : Edit)
    (rest : List Edit)
    (hfind : findWordsFrom (splitWords e.oldText) result cursor = none) :
    EditMode.applyLoop result cursor count (e :: rest) =
      EditMode.applyLoop result cursor count rest ∧
    RestoreTool.applyLoop result cursor count (e :: rest) =
      RestoreTool.applyLoop result cursor count rest := by
  constructor
  · simp only [EditMode.applyLoop, hfind, ite_self]
  · simp only [RestoreTool.applyLoop, hfind, ite_self]

/-- Witness for the amended C3, at the distinguishing scenario: in
`<body>ho HI</body>` with the cursor at 11, the pattern `ho` is present
at offset 6 — before the cursor, inside the body region — yet the edit is
skipped and the loop state passes through unchanged. -/
theorem patch_no_retry_amended_witness :
    EditMode.applyLoop (str "<body>ho HI</body>") 11 1 [Edit.mk (str "ho") (str "HO")] =
      EditMode.applyLoop (str "<body>ho HI</body>") 11 1 [] ∧
    RestoreTool.applyLoop (str "<body>ho HI</body>") 11 1 [Edit.mk (str "ho") (str "HO")] =
      RestoreTool.applyLoop (str "<body>ho HI</body>") 11 1 [] :=
  patch_no_retry_amended (str "<body>ho HI</body>") 11 1 (Edit.mk (str "ho") (str "HO")) []
    (by decide)

/-! ### C5: which edits are skipped -/

/-- C5 counterexample.  The in-page patcher's guard tests `== null`, not
emptiness: an edit with non-empty `oldText` and empty `newText` is not
skipped — it is applied (the text is deleted) and counted. -/
theorem skip_empty_new_counterexample :
    EditMode.applyEditsToSource (str "<body>abc</body>") [Edit.mk (str "abc") []] =
      EditMode.PatchResult.mk (str "<body></body>") 1 ∧
    EditMode.applyEditsToSource (str "<body>abc</body>") [Edit.mk (str "abc") []] ≠
      EditMode.PatchResult.mk (str "<body>abc</body>") 0 := by
  exact ⟨by decide, by decide⟩

/-- C5 amended.  The in-page patcher skips an edit when the two texts are
equal or `oldText` has no words (empty or whitespace-only); it does not
skip for an empty `newText`.  The offline patcher additionally skips when
either text is the empty string. -/
theorem patch_skip_rules_amended (result : Str) (cursor count : Nat) (e : Edit)
    (rest : List Edit) :
    ((splitWords e.oldText = [] ∨ e.oldText = e.newText) →
      EditMode.applyLoop result cursor count (e :: rest) =
        EditMode.applyLoop result cursor count rest) ∧
    ((e.oldText = [] ∨ e.newText = [] ∨ e.oldText = e.newText) →
      RestoreTool.applyLoop result cursor count (e :: rest) =
        RestoreTool.applyLoop result cursor count rest) := by
  constructor
  · intro h
    rcases h with h | h
    · simp only [EditMode.applyLoop, h, List.isEmpty_nil, if_true, ite_self]
    · simp only [EditMode.applyLoop, if_pos h]
  · intro h
    simp only [RestoreTool.applyLoop, if_pos h]

/-- Witness for the amended C5. -/
theorem patch_skip_rules_amended_witness :
    EditMode.applyLoop (str "x") 0 0 [Edit.mk (str "a") (str "a")] =
      EditMode.applyLoop (str "x") 0 0 [] ∧
    RestoreTool.applyLoop (str "x") 0 0 [Edit.mk (str "a") []] =
      RestoreTool.applyLoop (str "x") 0 0 [] :=
  ⟨(patch_skip_rules_amended (str "x") 0 0 (Edit.mk (str "a") (str "a")) []).1
      (Or.inr rfl),
   (patch_skip_rules_amended (str "x") 0 0 (Edit.mk (str "a") []) []).2
      (Or.inr (Or.inl rfl))⟩

/-! ### C4: what the patch pass returns -/

namespace EditMode

/-- The spec's `PatchResult` shape:
`{ html: string, appliedCount: int, unmatchedEdits: Edit[] }`. -/
structure PatchResultSpec where
  html : Str
  appliedCount : Nat
  unmatchedEdits : List Edit
deriving DecidableEq

/-- The code's edit loop extended, per the spec's words, to also collect
the list of edits that were attempted but found no match ("Return the
fully-rebuilt buffer plus `appliedCount` and the list of unmatched
edits").  Used to compare the spec's claimed return shape with the
code's. -/
def applyLoopWithUnmatched : Str → Nat → Nat → List Edit → Str × Nat × List Edit
  | result, _, count, [] => (result, count, [])
  | result, cursor, count, edit :: rest =>
    if edit.oldText = edit.newText then applyLoopWithUnmatched result cursor count rest
    else
      let words := splitWords edit.oldText
      if words.isEmpty then applyLoopWithUnmatched result cursor count rest
      else
        match findWordsFrom words result cursor with
        | none =>
          let out := applyLoopWithUnmatched result cursor count rest
          (out.1, out.2.1, edit :: out.2.2)
        | some q =>
          applyLoopWithUnmatched
            (result.take q.1 ++ edit.newText ++ result.drop (q.1 + q.2))
            (q.1 + edit.newText.length) (count + 1) rest

/-- The spec's claimed patch interface over the code's algorithm. -/
def applyEditsToSourceWithUnmatched (html : Str) (edits : List Edit) : PatchResultSpec :=
  let out := applyLoopWithUnmatched html (getBodyContentStartIndex html) 0 edits
  PatchResultSpec.mk out.1 out.2.1 out.2.2

theorem applyLoop_eq_withUnmatched :
    ∀ (edits : List Edit) (result : Str) (cursor count : Nat),
      applyLoop result cursor count edits =
        ((applyLoopWithUnmatched result cursor count edits).1,
         (applyLoopWithUnmatched result cursor count edits).2.1) := by
  intro edits
  induction edits with
  | nil => intro r c n; rfl
  | cons e rest ih =>
    intro r c n
    simp only [applyLoop, applyLoopWithUnmatched]
    by_cases h1 : e.oldText = e.newText
    · simp only [if_pos h1]; exact ih r c n
    · simp only [if_neg h1]
      by_cases h2 : (splitWords e.oldText).isEmpty = true
      · simp only [if_pos h2]; exact ih r c n
      · simp only [if_neg h2]
        cases hf : findWordsFrom (splitWords e.oldText) r c with
        | none => simp only [hf]; exact ih r c n
        | some q => simp only [hf]; exact ih _ _ _

end EditMode

/-- C4 counterexample.  The code's `PatchResult` is only
`{ html, appliedCount }`: no projection of it can recover the list of
unmatched edits, because two runs — an empty edit list, and a single
attempted-but-unmatched edit — produce identical `PatchResult`s while
their unmatched lists differ.  This negates the claim that the patch
operation returns the unmatched-edit list. -/
theorem patch_result_no_unmatched_list_counterexample :
    ¬ ∃ f : EditMode.PatchResult → List Edit,
        ∀ (html : Str) (edits : List Edit),
          f (EditMode.applyEditsToSource html edits) =
            (EditMode.applyEditsToSourceWithUnmatched html edits).unmatchedEdits := by
  rintro ⟨f, hf⟩
  have h1 := hf (str "<body>x</body>") []
  have h2 := hf (str "<body>x</body>") [Edit.mk (str "zz") (str "y")]
  have heq : EditMode.applyEditsToSource (str "<body>x</body>") [] =
      EditMode.applyEditsToSource (str "<body>x</body>")
        [Edit.mk (str "zz") (str "y")] := by decide
  rw [heq] at h1
  exact absurd (h1.symm.trans h2) (by decide)

/-- C4 amended.  The patch pass returns only the rebuilt buffer and
`appliedCount` — exactly the first two components of the spec-shaped
result; the unmatched-edit list is not part of the returned value (callers
can only compare `appliedCount` with `edits.length`). -/
theorem patch_result_fields_amended (html : Str) (edits : List Edit) :
    EditMode.applyEditsToSource html edits =
      EditMode.PatchResult.mk
        (EditMode.applyEditsToSourceWithUnmatched html edits).html
        (EditMode.applyEditsToSourceWithUnmatched html edits).appliedCount := by
  unfold EditMode.applyEditsToSource EditMode.applyEditsToSourceWithUnmatched
  rw [EditMode.applyLoop_eq_withUnmatched]

/-! ### C6: bytes before the end of the opening body tag are never touched -/

theorem take_replaced (r new : Str) (b start k : Nat) (hbs : b ≤ start)
    (hbr : b ≤ r.length) :
    (r.take start ++ new ++ r.drop k).take b = r.take b := by
  rw [List.append_assoc, List.take_append_eq_append_take]
  have hlen : (r.take start).length = min start r.length := List.length_take start r
  have hz : b - (r.take start).length = 0 := by omega
  rw [hz, List.take_zero, List.append_nil, List.take_take]
  have : min b start = b := Nat.min_eq_left hbs
  rw [this]

theorem em_applyLoop_take (html : Str) (b : Nat) (hb : b ≤ html.length) :
    ∀ (edits : List Edit) (result : Str) (cursor count : Nat),
      b ≤ cursor → result.take b = html.take b →
      ((EditMode.applyLoop result cursor count edits).1).take b = html.take b := by
  intro edits
  induction edits with
  | nil => intro r c n _ hr; exact hr
  | cons e rest ih =>
    intro r c n hc hr
    simp only [EditMode.applyLoop]
    by_cases h1 : e.oldText = e.newText
    · simp only [if_pos h1]; exact ih r c n hc hr
    · simp only [if_neg h1]
      by_cases h2 : (splitWords e.oldText).isEmpty = true
      · simp only [if_pos h2]; exact ih r c n hc hr
      · simp only [if_neg h2]
        cases hf : findWordsFrom (splitWords e.oldText) r c with
        | none => simp only [hf]; exact ih r c n hc hr
        | some q =>
          simp only [hf]
          have hcq : c ≤ q.1 := findWordsFrom_ge _ _ _ _ hf
          have hbr : b ≤ r.length := by
            have hlr := congrArg List.length hr
            simp only [List.length_take] at hlr
            omega
          apply ih
          · omega
          · rw [take_replaced r e.newText b q.1 (q.1 + q.2) (by omega) hbr]
            exact hr

theorem rt_applyLoop_take (html : Str) (b : Nat) (hb : b ≤ html.length) :
    ∀ (edits : List Edit) (result : Str) (cursor count : Nat),
      b ≤ cursor → result.take b = html.take b →
      ((RestoreTool.applyLoop result cursor count edits).1).take b = html.take b := by
  intro edits
  induction edits with
  | nil => intro r c n _ hr; exact hr
  | cons e rest ih =>
    intro r c n hc hr
    simp only [RestoreTool.applyLoop]
    by_cases h1 : e.oldText = [] ∨ e.newText = [] ∨ e.oldText = e.newText
    · simp only [if_pos h1]; exact ih r c n hc hr
    · simp only [if_neg h1]
      by_cases h2 : (splitWords e.oldText).isEmpty = true
      · simp only [if_pos h2]; exact ih r c n hc hr
      · simp only [if_neg h2]
        cases hf : findWordsFrom (splitWords e.oldText) r c with
        | none => simp only [hf]; exact ih r c n hc hr
        | some q =>
          simp only [hf]
          have hcq : c ≤ q.1 := findWordsFrom_ge _ _ _ _ hf
          have hbr : b ≤ r.length := by
            have hlr := congrArg List.length hr
            simp only [List.length_take] at hlr
            omega
          apply ih
          · omega
          · rw [take_replaced r e.newText b q.1 (q.1 + q.2) (by omega) hbr]
            exact hr

/-- C6.  Both patchers initialise the cursor to the end of the opening
body tag and only ever search and replace at or after the cursor, which
never moves backwards; hence every character before that offset — the
head, meta tags and scripts — is identical in the input and output
buffers. -/
theorem patch_preserves_head_region (html : Str) (edits : List Edit) :
    ((EditMode.applyEditsToSource html edits).html).take
        (getBodyContentStartIndex html) =
      html.take (getBodyContentStartIndex html) ∧
    ((RestoreTool.applyEditsToSource html edits).html).take
        (getBodyContentStartIndex html) =
      html.take (getBodyContentStartIndex html) := by
  constructor
  · exact em_applyLoop_take html _ (bodyStart_le html) edits html _ 0
      (Nat.le_refl _) rfl
  · exact rt_applyLoop_take html _ (bodyStart_le html) edits html _ 0
      (Nat.le_refl _) rfl

/-! ### DOM model: classifier, baseline store, enable/disable
(src/edit-mode.js lines 30-54, 58-63, 109-149) -/

/-- `TOOLBAR_ID` (src/edit-mode.js line 31). -/
def TOOLBAR_ID : Str := str "edit-toolbar"

/-- The tag allow-list of `EDITABLE_SELECTORS` (src/edit-mode.js line 30),
as the list of tag names the selector string enumerates. -/
def EDITABLE_SELECTORS : List Str :=
  [str "h1", str "h2", str "h3", str "h4", str "h5", str "h6", str "p",
   str "span", str "li", str "a", str "button", str "label", str "td",
   str "th", str "blockquote", str "figcaption", str "caption", str "dt",
   str "dd", str "summary", str "legend"]

/-- The element state the engine reads and writes: the `data-edit-orig`
baseline attribute, the `contenteditable` attribute, membership in the
`editable-element` class, and the `data-edit-blocked` link flag. -/
structure Attrs where
  editOrig : Option Str
  contenteditable : Bool
  editClass : Bool
  editBlocked : Bool
deriving DecidableEq

/-- A DOM node: a text node, or an element with a tag name (lowercase), an
`id`, its engine-visible attributes and its children.  UI-only state
(styles, toolbar visibility, event listeners) is not part of the model. -/
inductive Node where
  | text : Str → Node
  | elem : Str → Str → Attrs → List Node → Node

mutual
/-- `el.textContent`: the concatenated text of all descendant text nodes. -/
def textContent : Node → Str
  | .text s => s
  | .elem _ _ _ cs => textContentList cs
def textContentList : List Node → Str
  | [] => []
  | n :: ns => textContent n ++ textContentList ns
end

/-- The loop body of `isTextNode` (src/edit-mode.js lines 58-63) over the
element's direct children: true as soon as some direct child is a text
node whose trimmed content is nonempty. -/
def isTextNodeKids : List Node → Bool
  | [] => false
  | Node.text s :: rest => !(trimStr s).isEmpty || isTextNodeKids rest
  | Node.elem _ _ _ _ :: rest => isTextNodeKids rest

/-- `isTextNode(el)` (src/edit-mode.js lines 58-63). -/
def isTextNode : Node → Bool
  | .text _ => false
  | .elem _ _ _ cs => isTextNodeKids cs

mutual
/-- The per-element action of `snapshotOriginalTexts` (src/edit-mode.js
lines 46-54), pushed through the tree: for every allow-listed element
outside the toolbar (`closest` is tracked by the accumulated `tb` flag)
that has a direct text child and no `data-edit-orig` attribute yet, record
its current `textContent` as the baseline. -/
def snapNode : Bool → Node → Node
  | _, .text s => .text s
  | tb, .elem tag id a cs =>
    let tb2 := tb || id == TOOLBAR_ID
    Node.elem tag id
      (if EDITABLE_SELECTORS.contains tag && !tb2 && isTextNodeKids cs &&
          a.editOrig.isNone then
        Attrs.mk (some (textContentList cs)) a.contenteditable a.editClass a.editBlocked
      else a)
      (snapList tb2 cs)
def snapList : Bool → List Node → List Node
  | _, [] => []
  | tb, n :: ns => snapNode tb n :: snapList tb ns
end

/-- `snapshotOriginalTexts()` (src/edit-mode.js lines 46-54) over the whole
document. -/
def snapshotOriginalTexts (doc : List Node) : List Node :=
  snapList false doc

mutual
/-- The marking passes of `enableEdit` (src/edit-mode.js lines 114-127):
grant `contenteditable` and the edit class to every allow-listed,
non-toolbar element with a direct text child, and set the
`data-edit-blocked` flag on every non-toolbar anchor. -/
def markNode : Bool → Node → Node
  | _, .text s => .text s
  | tb, .elem tag id a cs =>
    let tb2 := tb || id == TOOLBAR_ID
    let a1 := if EDITABLE_SELECTORS.contains tag && !tb2 && isTextNodeKids cs then
        Attrs.mk a.editOrig true true a.editBlocked
      else a
    let a2 := if tag == str "a" && !tb2 then
        Attrs.mk a1.editOrig a1.contenteditable a1.editClass true
      else a1
    Node.elem tag id a2 (markList tb2 cs)
def markList : Bool → List Node → List Node
  | _, [] => []
  | tb, n :: ns => markNode tb n :: markList tb ns
end

mutual
/-- The clearing passes of `disableEdit` (src/edit-mode.js lines 137-145):
remove the `contenteditable` attribute and edit class from every element
holding the attribute, and the `data-edit-blocked` flag from every flagged
anchor.  `data-edit-orig` is not touched. -/
def unmarkNode : Node → Node
  | .text s => .text s
  | .elem tag id a cs =>
    let a1 := if a.contenteditable then
        Attrs.mk a.editOrig false false a.editBlocked
      else a
    let a2 := if tag == str "a" && a1.editBlocked then
        Attrs.mk a1.editOrig a1.contenteditable a1.editClass false
      else a1
    Node.elem tag id a2 (unmarkList cs)
def unmarkList : List Node → List Node
  | [] => []
  | n :: ns => unmarkNode n :: unmarkList ns
end

/-- The engine's session state: the `editActive` flag and the document. -/
structure EMState where
  editActive : Bool
  doc : List Node

/-- `enableEdit()` (src/edit-mode.js lines 109-131).  Toolbar creation and
visibility are UI-only (the toolbar element, created once at init, is part
of `doc` when present and excluded from targets via its id). -/
def enableEdit (st : EMState) : EMState :=
  if st.editActive then st
  else EMState.mk true (markList false (snapshotOriginalTexts st.doc))

/-- `disableEdit()` (src/edit-mode.js lines 133-149).  Toolbar hiding and
`clearEditFlagsFromURL` are UI/URL-only and outside the model. -/
def disableEdit (st : EMState) : EMState :=
  if st.editActive then EMState.mk false (unmarkList st.doc) else st

/-- Node lookup along a path of child indices (the first index selects a
root, later ones descend into element children). -/
def forestAt : List Node → List Nat → Option Node
  | _, [] => none
  | ns, [i] => ns.get? i
  | ns, i :: p =>
    match ns.get? i with
    | some (Node.elem _ _ _ cs) => forestAt cs p
    | _ => none

/-- The `data-edit-orig` attribute of a node. -/
def nodeOrig : Node → Option Str
  | .text _ => none
  | .elem _ _ a _ => a.editOrig

/-- The `contenteditable` attribute of a node. -/
def nodeCE : Node → Bool
  | .text _ => false
  | .elem _ _ a _ => a.contenteditable

theorem snapList_get (tb : Bool) :
    ∀ (ns : List Node) (i : Nat),
      (snapList tb ns).get? i = (ns.get? i).map (snapNode tb) := by
  intro ns
  induction ns with
  | nil => intro i; rfl
  | cons n ns ih =>
    intro i
    cases i with
    | zero => rfl
    | succ j => simp only [snapList, List.get?_cons_succ, ih j]

theorem markList_get (tb : Bool) :
    ∀ (ns : List Node) (i : Nat),
      (markList tb ns).get? i = (ns.get? i).map (markNode tb) := by
  intro ns
  induction ns with
  | nil => intro i; rfl
  | cons n ns ih =>
    intro i
    cases i with
    | zero => rfl
    | succ j => simp only [markList, List.get?_cons_succ, ih j]

theorem unmarkList_get :
    ∀ (ns : List Node) (i : Nat),
      (unmarkList ns).get? i = (ns.get? i).map unmarkNode := by
  intro ns
  induction ns with
  | nil => intro i; rfl
  | cons n ns ih =>
    intro i
    cases i with
    | zero => rfl
    | succ j => simp only [unmarkList, List.get?_cons_succ, ih j]

theorem forestAt_snapList :
    ∀ (p : List Nat) (tb : Bool) (ns : List Node) (n : Node),
      forestAt ns p = some n →
      ∃ tb2, forestAt (snapList tb ns) p = some (snapNode tb2 n) := by
  intro p
  induction p with
  | nil => intro tb ns n h; exact absurd h (by simp [forestAt])
  | cons i p ih =>
    intro tb ns n h
    cases p with
    | nil =>
      refine ⟨tb, ?_⟩
      show (snapList tb ns).get? i = some (snapNode tb n)
      rw [snapList_get]
      have h0 : ns.get? i = some n := h
      rw [h0]
      rfl
    | cons j q =>
      cases hg : ns.get? i with
      | none =>
        exfalso
        have h0 : forestAt ns (i :: j :: q) =
            (match ns.get? i with
              | some (Node.elem _ _ _ cs) => forestAt cs (j :: q)
              | _ => none) := rfl
        rw [h0, hg] at h
        exact Option.noConfusion h
      | some m =>
        cases m with
        | text s =>
          exfalso
          have h0 : forestAt ns (i :: j :: q) =
              (match ns.get? i with
                | some (Node.elem _ _ _ cs) => forestAt cs (j :: q)
                | _ => none) := rfl
          rw [h0, hg] at h
          exact Option.noConfusion h
        | elem tag id a cs =>
          have h0 : forestAt ns (i :: j :: q) =
              (match ns.get? i with
                | some (Node.elem _ _ _ cs) => forestAt cs (j :: q)
                | _ => none) := rfl
          rw [h0, hg] at h
          obtain ⟨tb2, h2⟩ := ih (tb || id == TOOLBAR_ID) cs n h
          refine ⟨tb2, ?_⟩
          have h1 : forestAt (snapList tb ns) (i :: j :: q) =
              (match (snapList tb ns).get? i with
                | some (Node.elem _ _ _ cs) => forestAt cs (j :: q)
                | _ => none) := rfl
          rw [h1, snapList_get, hg]
          simp only [Option.map_some', snapNode]
          exact h2

theorem forestAt_markList :
    ∀ (p : List Nat) (tb : Bool) (ns : List Node) (n : Node),
      forestAt ns p = some n →
      ∃ tb2, forestAt (markList tb ns) p = some (markNode tb2 n) := by
  intro p
  induction p with
  | nil => intro tb ns n h; exact absurd h (by simp [forestAt])
  | cons i p ih =>
    intro tb ns n h
    cases p with
    | nil =>
      refine ⟨tb, ?_⟩
      show (markList tb ns).get? i = some (markNode tb n)
      rw [markList_get]
      have h0 : ns.get? i = some n := h
      rw [h0]
      rfl
    | cons j q =>
      cases hg : ns.get? i with
      | none =>
        exfalso
        have h0 : forestAt ns (i :: j :: q) =
            (match ns.get? i with
              | some (Node.elem _ _ _ cs) => forestAt cs (j :: q)
              | _ => none) := rfl
        rw [h0, hg] at h
        exact Option.noConfusion h
      | some m =>
        cases m with
        | text s =>
          exfalso
          have h0 : forestAt ns (i :: j :: q) =
              (match ns.get? i with
                | some (Node.elem _ _ _ cs) => forestAt cs (j :: q)
                | _ => none) := rfl
          rw [h0, hg] at h
          exact Option.noConfusion h
        | elem tag id a cs =>
          have h0 : forestAt ns (i :: j :: q) =
              (match ns.get? i with
                | some (Node.elem _ _ _ cs) => forestAt cs (j :: q)
                | _ => none) := rfl
          rw [h0, hg] at h
          obtain ⟨tb2, h2⟩ := ih (tb || id == TOOLBAR_ID) cs n h
          refine ⟨tb2, ?_⟩
          have h1 : forestAt (markList tb ns) (i :: j :: q) =
              (match (markList tb ns).get? i with
                | some (Node.elem _ _ _ cs) => forestAt cs (j :: q)
                | _ => none) := rfl
          rw [h1, markList_get, hg]
          simp only [Option.map_some', markNode]
          exact h2

theorem forestAt_unmarkList :
    ∀ (p : List Nat) (ns : List Node),
      forestAt (unmarkList ns) p = (forestAt ns p).map unmarkNode := by
  intro p
  induction p with
  | nil => intro ns; rfl
  | cons i p ih =>
    intro ns
    cases p with
    | nil =>
      show (unmarkList ns).get? i = (ns.get? i).map unmarkNode
      exact unmarkList_get ns i
    | cons j q =>
      have h0 : forestAt (unmarkList ns) (i :: j :: q) =
          (match (unmarkList ns).get? i with
            | some (Node.elem _ _ _ cs) => forestAt cs (j :: q)
            | _ => none) := rfl
      have h1 : forestAt ns (i :: j :: q) =
          (match ns.get? i with
            | some (Node.elem _ _ _ cs) => forestAt cs (j :: q)
            | _ => none) := rfl
      rw [h0, h1, unmarkList_get]
      cases hg : ns.get? i with
      | none => rfl
      | some m =>
        cases m with
        | text s => rfl
        | elem tag id a cs =>
          simp only [Option.map_some', unmarkNode]
          exact ih cs

/-- `disableEdit` changes neither the tree shape nor any `data-edit-orig`
value: the baseline of the node at any path is the same before and
after. -/
theorem nodeOrig_unmarkNode (n : Node) : nodeOrig (unmarkNode n) = nodeOrig n := by
  cases n with
  | text s => rfl
  | elem tag id a cs =>
    simp only [unmarkNode, nodeOrig]
    split_ifs <;> rfl

theorem isTextNodeKids_snapList (tb : Bool) :
    ∀ cs, isTextNodeKids (snapList tb cs) = isTextNodeKids cs := by
  intro cs
  induction cs with
  | nil => rfl
  | cons n ns ih =>
    cases n with
    | text s => simp only [snapList, snapNode, isTextNodeKids, ih]
    | elem tag id a cs2 => simp only [snapList, snapNode, isTextNodeKids, ih]

theorem nodeCE_mark_snap_noText (tb2 tb3 : Bool) (tag id : Str) (a : Attrs)
    (cs : List Node) (hnotext : isTextNodeKids cs = false) :
    nodeCE (markNode tb3 (snapNode tb2 (Node.elem tag id a cs))) =
      a.contenteditable := by
  simp only [snapNode, markNode, nodeCE, isTextNodeKids_snapList, hnotext,
    Bool.and_false, Bool.false_and]
  split_ifs <;> simp_all

/-! ### C7: what `disableEdit` clears -/

/-- C7 counterexample.  `disableEdit` removes the `contenteditable`
attributes and the edit class but never touches `data-edit-orig`: after an
enable/disable cycle the paragraph still holds its baseline (`some "Hi"`),
refuting the claim that no node retains a baseline after disable. -/
theorem disable_keeps_baselines_counterexample :
    (forestAt (disableEdit (enableEdit (EMState.mk false
          [Node.elem (str "p") [] (Attrs.mk none false false false)
            [Node.text (str "Hi")]]))).doc [0]).map nodeOrig =
      some (some (str "Hi")) ∧
    (some (str "Hi") : Option Str) ≠ none := by
  exact ⟨by decide, by decide⟩

/-- C7 amended.  `disableEdit` clears editability (the `contenteditable`
attribute, the edit class and the link-blocking flag) but leaves every
`data-edit-orig` baseline exactly as it was: the baseline of the node at
any path is unchanged, and baselines persist for the page lifetime. -/
theorem disable_preserves_baselines_amended (st : EMState) (p : List Nat) :
    (forestAt (disableEdit st).doc p).map nodeOrig =
      (forestAt st.doc p).map nodeOrig := by
  unfold disableEdit
  by_cases h : st.editActive
  · rw [if_pos h]
    show (forestAt (unmarkList st.doc) p).map nodeOrig = _
    rw [forestAt_unmarkList]
    cases hf : forestAt st.doc p with
    | none => rfl
    | some n => simp only [Option.map_some', nodeOrig_unmarkNode]
  · rw [if_neg h]

/-! ### C8: leaf selection -/

/-- C8 counterexample.  A list item with its own direct text and a nested
anchor with text: after `enableEdit` both the list item (path `[0]`) and
its descendant anchor (path `[0, 1]`) carry `contenteditable` — the code
has no leaf-selection rule, so an element and its descendant can both be
classified, refuting the claim. -/
theorem nested_both_editable_counterexample :
    ((forestAt (enableEdit (EMState.mk false
          [Node.elem (str "li") [] (Attrs.mk none false false false)
            [Node.text (str "Item "),
             Node.elem (str "a") [] (Attrs.mk none false false false)
               [Node.text (str "Link")]]])).doc [0]).map nodeCE = some true) ∧
    ((forestAt (enableEdit (EMState.mk false
          [Node.elem (str "li") [] (Attrs.mk none false false false)
            [Node.text (str "Item "),
             Node.elem (str "a") [] (Attrs.mk none false false false)
               [Node.text (str "Link")]]])).doc [0, 1]).map nodeCE = some true) := by
  exact ⟨by decide, by decide⟩

/-- C8 amended.  Classification checks only the tag allow-list, the
toolbar exclusion and the presence of a direct non-whitespace text child.
An element without such a direct text child is never made editable by
`enableEdit` (its `contenteditable` state is untouched), so a pure wrapper
around a qualifying descendant is excluded; but the rule is not
innermost-only: as the counterexample shows, an ancestor with its own
direct text is selected together with its qualifying descendant. -/
theorem no_direct_text_never_editable_amended (st : EMState) (p : List Nat)
    (tag id : Str) (a : Attrs) (cs : List Node)
    (hat : forestAt st.doc p = some (Node.elem tag id a cs))
    (hnotext : isTextNodeKids cs = false) :
    (forestAt (enableEdit st).doc p).map nodeCE = some a.contenteditable := by
  unfold enableEdit
  by_cases hact : st.editActive
  · rw [if_pos hact, hat]
    rfl
  · rw [if_neg hact]
    show (forestAt (markList false (snapshotOriginalTexts st.doc)) p).map nodeCE = _
    unfold snapshotOriginalTexts
    obtain ⟨tb2, h2⟩ := forestAt_snapList p false st.doc _ hat
    obtain ⟨tb3, h3⟩ := forestAt_markList p false _ _ h2
    rw [h3]
    simp only [Option.map_some']
    rw [nodeCE_mark_snap_noText tb2 tb3 tag id a cs hnotext]

/-- Witness for the amended C8: a paragraph whose only text sits inside a
nested span keeps `contenteditable = false` after `enableEdit`. -/
theorem no_direct_text_never_editable_amended_witness :
    (forestAt (enableEdit (EMState.mk false
          [Node.elem (str "p") [] (Attrs.mk none false false false)
            [Node.elem (str "span") [] (Attrs.mk none false false false)
              [Node.text (str "x")]]])).doc [0]).map nodeCE = some false :=
  no_direct_text_never_editable_amended
    (EMState.mk false
      [Node.elem (str "p") [] (Attrs.mk none false false false)
        [Node.elem (str "span") [] (Attrs.mk none false false false)
          [Node.text (str "x")]]])
    [0] (str "p") [] (Attrs.mk none false false false)
    [Node.elem (str "span") [] (Attrs.mk none false false false)
      [Node.text (str "x")]]
    (by rfl) (by rfl)

/-! ### C10: the baseline store is write-once -/

/-- C10.  `snapshotOriginalTexts` writes a baseline only to elements whose
`data-edit-orig` is absent (`!el.hasAttribute` guard): an element that
already holds a baseline `v` still holds exactly `v` after the snapshot
runs again, e.g. on a second enable. -/
theorem snapshot_write_once (doc : List Node) (p : List Nat) (tag id : Str)
    (a : Attrs) (cs : List Node) (v : Str)
    (hat : forestAt doc p = some (Node.elem tag id a cs))
    (hv : a.editOrig = some v) :
    (forestAt (snapshotOriginalTexts doc) p).map nodeOrig = some (some v) := by
  unfold snapshotOriginalTexts
  obtain ⟨tb2, h2⟩ := forestAt_snapList p false doc _ hat
  rw [h2]
  simp [snapNode, nodeOrig, hv]

/-- Witness for C10: a node with baseline `old` and current text `New`
keeps baseline `old` across another snapshot. -/
theorem snapshot_write_once_witness :
    (forestAt (snapshotOriginalTexts
          [Node.elem (str "p") [] (Attrs.mk (some (str "old")) false false false)
            [Node.text (str "New")]]) [0]).map nodeOrig =
      some (some (str "old")) :=
  snapshot_write_once
    [Node.elem (str "p") [] (Attrs.mk (some (str "old")) false false false)
      [Node.text (str "New")]]
    [0] (str "p") [] (Attrs.mk (some (str "old")) false false false)
    [Node.text (str "New")] (str "old") (by rfl) (by rfl)

/-! ### Offline reconciliation tool
(src/scripts/restore-original-texts.js) -/

namespace RestoreTool

/-- `String.fromCharCode(n)`: JS reduces the operand modulo 2^16.  Code
units in the surrogate range are not valid Unicode scalars, so `Char.ofNat`
maps them (and only them) to NUL instead of a lone surrogate; no claim
involves such references.  Digit strings beyond 2^53 lose precision in JS
but not here — likewise outside every claim. -/
def fromCharCode (n : Nat) : Char := Char.ofNat (n % 65536)

/-- `Number.parseInt(ds, 10)` on a nonempty decimal digit run. -/
def digitsToNat (ds : Str) : Nat :=
  ds.foldl (fun acc c => 10 * acc + (c.toNat - 48)) 0

def hexDigitVal (c : Char) : Nat :=
  if '0' ≤ c ∧ c ≤ '9' then c.toNat - 48
  else if 'a' ≤ c ∧ c ≤ 'f' then c.toNat - 87
  else c.toNat - 55

/-- `Number.parseInt(ds, 16)` on a nonempty hex digit run (either case). -/
def hexToNat (ds : Str) : Nat :=
  ds.foldl (fun acc c => 16 * acc + hexDigitVal c) 0

def isHexDigit (c : Char) : Bool :=
  c.isDigit || ('a' ≤ c && c ≤ 'f') || ('A' ≤ c && c ≤ 'F')

/-- Matcher for one case-insensitive literal entity replacement of
`decodeEntities` (src/scripts/restore-original-texts.js lines 47-63). -/
def ciLitMatcher (pat rep : Str) (s : Str) : Option (Nat × Str) :=
  (dropCIOpt pat s).map (fun _ => (pat.length, rep))

/-- The `/&#(\d+);/g` pass of `decodeEntities`: `&#`, a maximal nonempty
digit run, `;`.  The parsed value is always finite, so the replacement
always happens. -/
def decEntityMatcher (s : Str) : Option (Nat × Str) :=
  match s with
  | '&' :: '#' :: rest =>
    let ds := rest.takeWhile (fun c => c.isDigit)
    if ds.isEmpty then none
    else if (rest.drop ds.length).head? = some ';' then
      some (2 + ds.length + 1, [fromCharCode (digitsToNat ds)])
    else none
  | _ => none

/-- The `/&#x([0-9a-f]+);/gi` pass of `decodeEntities`. -/
def hexEntityMatcher (s : Str) : Option (Nat × Str) :=
  match s with
  | '&' :: '#' :: x :: rest =>
    if x.toLower = 'x' then
      let ds := rest.takeWhile isHexDigit
      if ds.isEmpty then none
      else if (rest.drop ds.length).head? = some ';' then
        some (3 + ds.length + 1, [fromCharCode (hexToNat ds)])
      else none
    else none
  | _ => none

/-- `decodeEntities(text)` (src/scripts/restore-original-texts.js lines
47-63): the eight global replacements, applied in source order (so e.g.
`&amp;lt;` double-decodes to `<`, exactly as in the code). -/
def decodeEntities (text : Str) : Str :=
  let t1 := replaceScan (ciLitMatcher (str "&nbsp;") (str " ")) text
  let t2 := replaceScan (ciLitMatcher (str "&amp;") (str "&")) t1
  let t3 := replaceScan (ciLitMatcher (str "&lt;") (str "<")) t2
  let t4 := replaceScan (ciLitMatcher (str "&gt;") (str ">")) t3
  let t5 := replaceScan (ciLitMatcher (str "&quot;") (str "\"")) t4
  let t6 := replaceScan (ciLitMatcher (str "&#39;") (str "'")) t5
  let t7 := replaceScan decEntityMatcher t6
  replaceScan hexEntityMatcher t7

/-- `getBodyInnerHTML(html)` (src/scripts/restore-original-texts.js lines
65-73): the slice between the first opening body tag and the first
`</body>`, or the whole buffer when either is missing or they are out of
order. -/
def getBodyInnerHTML (html : Str) : Str :=
  match findBodyOpen html, indexOfCI (str "</body>") html with
  | some q, some closeIdx =>
    if closeIdx ≤ q.1 + q.2 then html
    else (html.take closeIdx).drop (q.1 + q.2)
  | _, _ => html

/-- Matcher for `/<TAG\b[^>]*>[\s\S]*?<\/TAG>/gi` (the script/style
stripping of `collectBodyTextTokens`): opening tag with `\b` and a maximal
`[^>]*` run, then — lazily — everything up to the first closing tag. -/
def tagBlockMatcher (tag : Str) (s : Str) : Option (Nat × Str) :=
  match dropCIOpt ('<' :: tag) s with
  | none => none
  | some s1 =>
    if s1.head?.elim false isWordChar then none
    else if (s1.drop (nonGtRunLen s1)).head? = some '>' then
      match indexOfCI (str "</" ++ tag ++ str ">") (s1.drop (nonGtRunLen s1 + 1)) with
      | some j =>
        some (1 + tag.length + nonGtRunLen s1 + 1 + j + (2 + tag.length + 1), [])
      | none => none
    else none

def stripTagBlocks (tag : Str) (s : Str) : Str :=
  replaceScan (tagBlockMatcher tag) s

/-- The `/>([^<>]+)</g` exec loop of `collectBodyTextTokens`
(src/scripts/restore-original-texts.js lines 80-88) as a state machine:
after a `>`, collect non-`<`/`>` characters; a `<` closes a nonempty run
as a token (the scan resumes after the `<`, as JS does after a match); a
`>` restarts the candidate run. -/
def tokenScanAux : Str → Option Str → List Str
  | [], _ => []
  | c :: rest, none =>
    if c = '>' then tokenScanAux rest (some []) else tokenScanAux rest none
  | c :: rest, some acc =>
    if c = '>' then tokenScanAux rest (some [])
    else if c = '<' then
      if acc.isEmpty then tokenScanAux rest none
      else acc.reverse :: tokenScanAux rest none
    else tokenScanAux rest (some (c :: acc))

def tokenScan (s : Str) : List Str := tokenScanAux s none

/-- `collectBodyTextTokens(html)` (src/scripts/restore-original-texts.js
lines 75-89): body slice, script/style blocks removed, then each raw text
run decoded, trimmed and kept when nonempty. -/
def collectBodyTextTokens (html : Str) : List Str :=
  let body := stripTagBlocks (str "style") (stripTagBlocks (str "script") (getBodyInnerHTML html))
  ((tokenScan body).map (fun t => trimStr (decodeEntities t))).filter
    (fun t => !t.isEmpty)

/-- The `{ edits, originalCount, editedCount }` value of `buildEdits`. -/
structure BuildResult where
  edits : List Edit
  originalCount : Nat
  editedCount : Nat
deriving DecidableEq

/-- `buildEdits(originalHtml, editedHtml)`
(src/scripts/restore-original-texts.js lines 91-115): pair the two token
sequences positionally up to the shorter length and emit an edit wherever
they differ; throws when either file yields no tokens. -/
def buildEdits (originalHtml editedHtml : Str) : Except Str BuildResult :=
  let originalTexts := collectBodyTextTokens originalHtml
  let editedTexts := collectBodyTextTokens editedHtml
  if originalTexts.length = 0 ∨ editedTexts.length = 0 then
    Except.error (str "Could not detect editable text blocks in one of the files.")
  else
    Except.ok (BuildResult.mk
      (((originalTexts.zip editedTexts).filter (fun q => q.1 != q.2)).map
        (fun q => Edit.mk q.1 q.2))
      originalTexts.length editedTexts.length)

/-- The observable outcome of one `main()` run: the written output file,
the four reported counts, the process exit code, and which warnings went
to stderr. -/
structure RestoreRun where
  output : Str
  originalCount : Nat
  editedCount : Nat
  detected : Nat
  applied : Nat
  exitCode : Nat
  driftWarning : Bool
  unmatchedWarning : Bool
deriving DecidableEq

/-- `main()` (src/scripts/restore-original-texts.js lines 145-186),
abstracted over file I/O: the two file contents are parameters and the
written buffer is returned.  Argument-parsing failures (exit 1) and the
error thrown by `buildEdits` (an uncaught exception, hence a nonzero node
exit) are the `Except.error` branch.  In the zero-edit early return the
tool writes the original and exits 0 before printing any warning.  Note
that drift (`originalCount ≠ editedCount`) only sets a warning;
`process.exitCode = 2` is set only when `appliedCount < edits.length`. -/
def runRestore (originalHtml editedHtml : Str) : Except Str RestoreRun :=
  match buildEdits originalHtml editedHtml with
  | Except.error msg => Except.error msg
  | Except.ok b =>
    if b.edits.length = 0 then
      Except.ok (RestoreRun.mk originalHtml b.originalCount b.editedCount 0 0 0 false false)
    else
      let patched := applyEditsToSource originalHtml b.edits
      Except.ok (RestoreRun.mk patched.html b.originalCount b.editedCount
        b.edits.length patched.appliedCount
        (if patched.appliedCount < b.edits.length then 2 else 0)
        (b.originalCount != b.editedCount)
        (decide (patched.appliedCount < b.edits.length)))

end RestoreTool

/-! ### C9: exit status under structural drift -/

/-- C9 counterexample.  The original has two visible-text tokens, the
edited file one (structural drift, `driftWarning = true`), the single
detected edit (`Hello` to `Hola`) applies, and the run exits with the
full-success code 0 — the drift warning goes to stderr but the exit
status is not distinct from success, refuting the claim. -/
theorem drift_exit_zero_counterexample :
    RestoreTool.runRestore (str "<body><p>Hello</p><p>World</p></body>")
        (str "<body><p>Hola</p></body>") =
      Except.ok (RestoreTool.RestoreRun.mk
        (str "<body><p>Hola</p><p>World</p></body>") 2 1 1 1 0 true false) ∧
    (2 : Nat) ≠ 1 := by
  exact ⟨by rfl, by decide⟩

/-- C9 amended.  The tool's exit status is nonzero — always 2 — exactly
when some detected edit could not be applied; a token-count mismatch
(structural drift) only raises the stderr warning and leaves the exit
status at 0 when every edit applied. -/
theorem exit_nonzero_iff_unmatched_amended (o e : Str) (r : RestoreTool.RestoreRun)
    (h : RestoreTool.runRestore o e = Except.ok r) :
    (r.exitCode ≠ 0 ↔ r.applied < r.detected) ∧
    (r.exitCode = 0 ∨ r.exitCode = 2) := by
  unfold RestoreTool.runRestore at h
  split at h
  · exact Except.noConfusion h
  · rename_i b heq
    split at h
    · rename_i hz
      injection h with h
      subst h
      refine ⟨⟨fun hne => absurd rfl hne,
        fun hlt => absurd (show (0 : Nat) < 0 from hlt) (by omega)⟩, Or.inl rfl⟩
    · rename_i hz
      injection h with h
      subst h
      by_cases hu : (RestoreTool.applyEditsToSource o b.edits).appliedCount < b.edits.length
      · refine ⟨⟨fun _ => ?_, fun _ => ?_⟩, ?_⟩
        · show (RestoreTool.applyEditsToSource o b.edits).appliedCount < b.edits.length
          exact hu
        · show (if (RestoreTool.applyEditsToSource o b.edits).appliedCount <
              b.edits.length then 2 else 0) ≠ 0
          rw [if_pos hu]
          omega
        · show (if (RestoreTool.applyEditsToSource o b.edits).appliedCount <
              b.edits.length then 2 else 0) = 0 ∨
            (if (RestoreTool.applyEditsToSource o b.edits).appliedCount <
              b.edits.length then 2 else 0) = 2
          rw [if_pos hu]
          exact Or.inr rfl
      · refine ⟨⟨fun hne => ?_, fun hlt => absurd hlt hu⟩, ?_⟩
        · exfalso
          apply hne
          show (if (RestoreTool.applyEditsToSource o b.edits).appliedCount <
              b.edits.length then 2 else 0) = 0
          rw [if_neg hu]
        · show (if (RestoreTool.applyEditsToSource o b.edits).appliedCount <
              b.edits.length then 2 else 0) = 0 ∨
            (if (RestoreTool.applyEditsToSource o b.edits).appliedCount <
              b.edits.length then 2 else 0) = 2
          rw [if_neg hu]
          exact Or.inl rfl

/-- Witness for the amended C9, at a run with no differences. -/
theorem exit_nonzero_iff_unmatched_amended_witness :
    (((0 : Nat) ≠ 0) ↔ ((0 : Nat) < 0)) ∧ ((0 : Nat) = 0 ∨ (0 : Nat) = 2) :=
  exit_nonzero_iff_unmatched_amended (str "<body><p>A</p></body>")
    (str "<body><p>A</p></body>")
    (RestoreTool.RestoreRun.mk (str "<body><p>A</p></body>") 1 1 0 0 0 false false)
    (by rfl)
